import Mathlib

/-!
Shallow embedding of the request-processing layer of `argo2id-wasm`
(`src/index.ts`): the options validator, password validator, batch
coordinator and config descriptor. The WASM hashing primitive
(`hash`/`verify`) is an external collaborator and is modelled as an
explicit function parameter that may fail.
-/

/-- The validated option record (`Argon2idOptions` in `src/index.ts`).
JavaScript numbers that pass `Number.isInteger` are modelled as `Int`. -/
structure Argon2idOptions where
  time_cost : Int
  memory_cost : Int
  parallelism : Int
  salt_length : Int
deriving Repr, DecidableEq

/-- `DEFAULT_OPTIONS` from `src/index.ts` lines 54-60. -/
def DEFAULT_OPTIONS : Argon2idOptions :=
  { time_cost := 2
    memory_cost := 19456
    parallelism := 1
    salt_length := 16 }

/-- A JavaScript value supplied for a numeric option field.
`int n`: a number for which `Number.isInteger` is true, with exact value `n`.
`nonInt`: any other value (`Number.isInteger` is false on it). The validator
only compares a field after `Number.isInteger` passes, so this distinction
is all the embedding needs. -/
inductive FieldVal where
  | int (n : Int)
  | nonInt
deriving Repr, DecidableEq

/-- The caller-supplied `Partial<Argon2idOptions>` object: each field is
absent (`none`, i.e. `undefined`) or some JavaScript value. -/
structure RawOptions where
  time_cost : Option FieldVal := none
  memory_cost : Option FieldVal := none
  parallelism : Option FieldVal := none
  salt_length : Option FieldVal := none
deriving Repr, DecidableEq

/-- `validateHashOptions` (`src/index.ts` lines 70-117). `none` covers the
cases rejected by `!options || typeof options !== 'object'` (absent, null,
or a non-object). Each field clause mirrors one `if` block: the supplied
value is used only when `Number.isInteger` holds and the closed bound holds
(for `memory_cost` also `(m & (m-1)) === 0`; JavaScript's ToInt32 inside
`&` is the identity on the guarded range [8192, 1048576], and on negative
or huge integers the range guard already fails, so the `Int.toNat`
rendering of the bit test is only reached where it agrees with the source). -/
def validateHashOptions : Option RawOptions → Argon2idOptions
  | none => DEFAULT_OPTIONS
  | some options =>
    { time_cost :=
        match options.time_cost with
        | some (.int n) =>
          if 1 ≤ n ∧ n ≤ 10 then n else DEFAULT_OPTIONS.time_cost
        | _ => DEFAULT_OPTIONS.time_cost
      memory_cost :=
        match options.memory_cost with
        | some (.int n) =>
          if 8192 ≤ n ∧ n ≤ 1048576 ∧ n.toNat &&& (n.toNat - 1) = 0 then n
          else DEFAULT_OPTIONS.memory_cost
        | _ => DEFAULT_OPTIONS.memory_cost
      parallelism :=
        match options.parallelism with
        | some (.int n) =>
          if 1 ≤ n ∧ n ≤ 16 then n else DEFAULT_OPTIONS.parallelism
        | _ => DEFAULT_OPTIONS.parallelism
      salt_length :=
        match options.salt_length with
        | some (.int n) =>
          if 8 ≤ n ∧ n ≤ 32 then n else DEFAULT_OPTIONS.salt_length
        | _ => DEFAULT_OPTIONS.salt_length }

/-- A JavaScript value in a password slot: either a string, or a
non-string value carrying its truthiness (`falsy`). For
`validatePassword` only string-ness, emptiness and truthiness matter. -/
inductive JSVal where
  | str (s : String)
  | other (falsy : Bool)
deriving Repr, DecidableEq

/-- JavaScript truthiness test used by `!password`: the empty string is
falsy, every other string is truthy. -/
def jsFalsy : JSVal → Bool
  | .str s => s.isEmpty
  | .other f => f

/-- `typeof password === 'string'`. -/
def jsIsString : JSVal → Bool
  | .str _ => true
  | .other _ => false

/-- `validatePassword` (`src/index.ts` lines 63-68): throws unless the
value is a truthy string; `throw` is embedded as `Except.error`. -/
def validatePassword (password : JSVal) : Except String Bool :=
  if jsFalsy password || !jsIsString password then
    .error "Password must be a non-empty string"
  else
    .ok true

/-- `BatchHashResult` (`src/index.ts` lines 30-33): accumulated hashes and
per-index error records. -/
structure BatchHashResult where
  hashes : List String
  errors : List (Nat × String)
deriving Repr, DecidableEq

/-- Outcome of the `/batch-hash` handler: a 400 rejection with an error
message, or a 200 response carrying a `BatchHashResult`. -/
inductive BatchResponse where
  | badRequest (error : String)
  | ok (result : BatchHashResult)
deriving Repr, DecidableEq

/-- The `passwords.forEach((pwd, index) => ...)` loop of the `/batch-hash`
handler (`src/index.ts` lines 271-278), parameterised by the external
hashing engine `hashFn` (which may fail, like a throwing `hash` call) and
starting at index `idx`. Processing the head first and consing onto the
recursive result matches the in-order `push` calls of the source. -/
def processItems (hashFn : JSVal → Argon2idOptions → Except String String)
    (opts : Argon2idOptions) : Nat → List JSVal → BatchHashResult
  | _, [] => { hashes := [], errors := [] }
  | idx, pwd :: rest =>
    let r := processItems hashFn opts (idx + 1) rest
    match validatePassword pwd with
    | .error msg => { hashes := r.hashes, errors := (idx, msg) :: r.errors }
    | .ok _ =>
      match hashFn pwd opts with
      | .ok h => { hashes := h :: r.hashes, errors := r.errors }
      | .error msg => { hashes := r.hashes, errors := (idx, msg) :: r.errors }

/-- The `/batch-hash` handler (`src/index.ts` lines 247-285). The
`passwords` argument is `none` when the body's `passwords` is not an array
(`!Array.isArray(passwords)`). -/
def batchHash (hashFn : JSVal → Argon2idOptions → Except String String)
    (passwords : Option (List JSVal)) (options : Option RawOptions) : BatchResponse :=
  match passwords with
  | none => .badRequest "Passwords must be a non-empty array"
  | some pwds =>
    if pwds.length = 0 then .badRequest "Passwords must be a non-empty array"
    else if pwds.length > 100 then .badRequest "Batch size limited to 100 passwords"
    else
      let validatedOptions := validateHashOptions options
      .ok (processItems hashFn validatedOptions 0 pwds)

/-- The outcome of one batch item: password validation followed by the
engine call, as in the `try` block of the forEach loop. -/
def itemOutcome (hashFn : JSVal → Argon2idOptions → Except String String)
    (opts : Argon2idOptions) (pwd : JSVal) : Except String String :=
  match validatePassword pwd with
  | .error msg => .error msg
  | .ok _ => hashFn pwd opts

/-- The `/hash` handler (`src/index.ts` lines 169-185): validate the
password, validate the options, call the engine; any thrown error becomes
a 400 (`Except.error`). -/
def hashHandler (hashFn : JSVal → Argon2idOptions → Except String String)
    (password : JSVal) (options : Option RawOptions) : Except String String :=
  match validatePassword password with
  | .error msg => .error msg
  | .ok _ => hashFn password (validateHashOptions options)

/-- A `{min, max}` limit pair from the `/config` response. -/
structure LimitRange where
  min : Int
  max : Int
deriving Repr, DecidableEq

/-- The `memory_cost` limit entry, which also carries a note string. -/
structure MemoryLimit where
  min : Int
  max : Int
  note : String
deriving Repr, DecidableEq

/-- The `batch_size` limit entry. -/
structure BatchLimit where
  max : Int
deriving Repr, DecidableEq

/-- The `limits` object of `ConfigResponse` (`src/index.ts` lines 37-43). -/
structure Limits where
  time_cost : LimitRange
  memory_cost : MemoryLimit
  parallelism : LimitRange
  salt_length : LimitRange
  batch_size : BatchLimit
deriving Repr, DecidableEq

/-- `ConfigResponse` (`src/index.ts` lines 35-44). -/
structure ConfigResponse where
  defaultOptions : Argon2idOptions
  limits : Limits
deriving Repr, DecidableEq

/-- The `GET /config` handler (`src/index.ts` lines 303-315): a constant,
built from `DEFAULT_OPTIONS` and the literal limit values of the source. -/
def getConfig : ConfigResponse :=
  { defaultOptions := DEFAULT_OPTIONS
    limits :=
      { time_cost := { min := 1, max := 10 }
        memory_cost := { min := 8192, max := 1048576, note := "Must be a power of 2" }
        parallelism := { min := 1, max := 16 }
        salt_length := { min := 8, max := 32 }
        batch_size := { max := 100 } } }

/-- Observable events of the `/batch-hash` handler, used to state ordering
claims: a call to `validateHashOptions` returning `opts`, or an engine
call `hash(pwd, opts)`. -/
inductive BatchEvent where
  | validatedOptions (opts : Argon2idOptions)
  | engineCall (pwd : JSVal) (opts : Argon2idOptions)
deriving Repr, DecidableEq

/-- `processItems` instrumented with the engine calls it makes, in order.
Its first component is exactly `processItems` (proved below). -/
def processItemsTraced (hashFn : JSVal → Argon2idOptions → Except String String)
    (opts : Argon2idOptions) : Nat → List JSVal → BatchHashResult × List BatchEvent
  | _, [] => ({ hashes := [], errors := [] }, [])
  | idx, pwd :: rest =>
    let r := processItemsTraced hashFn opts (idx + 1) rest
    match validatePassword pwd with
    | .error msg =>
      ({ hashes := r.1.hashes, errors := (idx, msg) :: r.1.errors }, r.2)
    | .ok _ =>
      match hashFn pwd opts with
      | .ok h =>
        ({ hashes := h :: r.1.hashes, errors := r.1.errors },
          .engineCall pwd opts :: r.2)
      | .error msg =>
        ({ hashes := r.1.hashes, errors := (idx, msg) :: r.1.errors },
          .engineCall pwd opts :: r.2)

/-- `batchHash` instrumented with its validation and engine-call events,
in program order. Its first component is exactly `batchHash` (proved
below). -/
def batchHashTraced (hashFn : JSVal → Argon2idOptions → Except String String)
    (passwords : Option (List JSVal)) (options : Option RawOptions) :
    BatchResponse × List BatchEvent :=
  match passwords with
  | none => (.badRequest "Passwords must be a non-empty array", [])
  | some pwds =>
    if pwds.length = 0 then (.badRequest "Passwords must be a non-empty array", [])
    else if pwds.length > 100 then (.badRequest "Batch size limited to 100 passwords", [])
    else
      let validatedOptions := validateHashOptions options
      let r := processItemsTraced hashFn validatedOptions 0 pwds
      (.ok r.1, .validatedOptions validatedOptions :: r.2)

/-- Recognizes a `validateHashOptions` call in a batch trace. -/
def isValidateEvent : BatchEvent → Bool
  | .validatedOptions _ => true
  | .engineCall _ _ => false

/-! ### Helper lemmas -/

theorem two_pow_land_pred (k : Nat) : 2 ^ k &&& (2 ^ k - 1) = 0 := by
  apply Nat.eq_of_testBit_eq
  intro i
  simp [Nat.testBit_land, Nat.testBit_two_pow, Nat.testBit_two_pow_sub_one,
    Nat.zero_testBit]

theorem testBit_of_between {n k : Nat} (h1 : 2 ^ k ≤ n) (h2 : n < 2 ^ (k + 1)) :
    n.testBit k = true := by
  rw [Nat.testBit_to_div_mod]
  have hpos : 0 < 2 ^ k := Nat.pos_pow_of_pos k (by omega)
  have hlo : 1 ≤ n / 2 ^ k := (Nat.le_div_iff_mul_le hpos).mpr (by omega)
  have hhi : n / 2 ^ k < 2 := (Nat.div_lt_iff_lt_mul hpos).mpr (by
    rw [pow_succ] at h2; omega)
  have : n / 2 ^ k = 1 := by omega
  simp [this]

theorem pow2_of_land_pred {n : Nat} (h0 : 0 < n) (h : n &&& (n - 1) = 0) :
    n = 2 ^ n.log2 := by
  by_contra hne
  have hle : 2 ^ n.log2 ≤ n := Nat.log2_self_le (by omega)
  have hlt : n < 2 ^ (n.log2 + 1) := Nat.lt_log2_self
  have hbit : n.testBit n.log2 = true := testBit_of_between hle hlt
  have hbit' : (n - 1).testBit n.log2 = true :=
    testBit_of_between (by omega) (by omega)
  have := congrArg (fun m => m.testBit n.log2) h
  simp [Nat.testBit_land, hbit, hbit', Nat.zero_testBit] at this

theorem processItemsTraced_fst (hashFn : JSVal → Argon2idOptions → Except String String)
    (opts : Argon2idOptions) (idx : Nat) (pwds : List JSVal) :
    (processItemsTraced hashFn opts idx pwds).1 = processItems hashFn opts idx pwds := by
  induction pwds generalizing idx with
  | nil => rfl
  | cons pwd rest ih =>
    simp only [processItemsTraced, processItems, ih]
    cases validatePassword pwd with
    | error msg => rfl
    | ok _ => cases hashFn pwd opts <;> rfl

theorem batchHashTraced_fst (hashFn : JSVal → Argon2idOptions → Except String String)
    (passwords : Option (List JSVal)) (options : Option RawOptions) :
    (batchHashTraced hashFn passwords options).1 = batchHash hashFn passwords options := by
  cases passwords with
  | none => rfl
  | some pwds =>
    simp only [batchHashTraced, batchHash]
    split <;> [rfl; skip]
    split <;> [rfl; skip]
    simp [processItemsTraced_fst]

theorem string_length_pos_iff (s : String) : 0 < s.length ↔ s ≠ "" := by
  cases s with
  | mk data =>
    have hlen : String.length { data := data } = data.length := rfl
    have hemp : ("" : String) = { data := [] } := rfl
    constructor
    · intro h hs
      rw [hemp] at hs
      have : data = ([] : List Char) := congrArg String.data hs
      subst this
      simp [hlen] at h
    · intro h
      have hd : data ≠ [] := by
        intro hnil
        apply h
        rw [hemp, hnil]
      rw [hlen]
      exact List.length_pos.mpr hd

theorem string_isEmpty_eq (s : String) : s.isEmpty = decide (s = "") := by
  rcases hb : s.isEmpty with _ | _
  · have hne : ¬ s = "" := by
      intro h
      have := (String.isEmpty_iff s).mpr h
      rw [hb] at this
      simp at this
    simp [hne]
  · have : s = "" := (String.isEmpty_iff s).mp (by rw [hb])
    simp [this]

theorem validatePassword_str_ok {s : String} (h : s ≠ "") :
    validatePassword (.str s) = .ok true := by
  simp [validatePassword, jsFalsy, jsIsString, string_isEmpty_eq, h]

theorem validatePassword_str_empty :
    validatePassword (.str "") = .error "Password must be a non-empty string" := rfl

theorem int_pow2_iff_land {n : Int} (h1 : 1 ≤ n) :
    (n.toNat &&& (n.toNat - 1) = 0) ↔ ∃ k : Nat, n = 2 ^ k := by
  constructor
  · intro h
    have h0 : 0 < n.toNat := by omega
    obtain ⟨k, hk⟩ : ∃ k, n.toNat = 2 ^ k := ⟨n.toNat.log2, pow2_of_land_pred h0 h⟩
    refine ⟨k, ?_⟩
    have hn : (n.toNat : Int) = n := Int.toNat_of_nonneg (by omega)
    rw [← hn, hk]
    push_cast
    ring
  · rintro ⟨k, rfl⟩
    have hcast : ((2 : Int) ^ k).toNat = 2 ^ k := by
      have : (2 : Int) ^ k = ((2 ^ k : Nat) : Int) := by push_cast; ring
      rw [this, Int.toNat_natCast]
    rw [hcast]
    exact two_pow_land_pred k

theorem processItems_length (hashFn : JSVal → Argon2idOptions → Except String String)
    (opts : Argon2idOptions) (idx : Nat) (pwds : List JSVal) :
    (processItems hashFn opts idx pwds).hashes.length
      + (processItems hashFn opts idx pwds).errors.length = pwds.length := by
  induction pwds generalizing idx with
  | nil => rfl
  | cons pwd rest ih =>
    simp only [processItems]
    cases validatePassword pwd with
    | error msg =>
      have := ih (idx + 1)
      simp only [List.length_cons]
      omega
    | ok _ =>
      cases hashFn pwd opts with
      | ok h =>
        have := ih (idx + 1)
        simp only [List.length_cons]
        omega
      | error msg =>
        have := ih (idx + 1)
        simp only [List.length_cons]
        omega

theorem processItems_hashes_eq (hashFn : JSVal → Argon2idOptions → Except String String)
    (opts : Argon2idOptions) (idx : Nat) (pwds : List JSVal) :
    (processItems hashFn opts idx pwds).hashes
      = pwds.filterMap (fun p => (itemOutcome hashFn opts p).toOption) := by
  induction pwds generalizing idx with
  | nil => rfl
  | cons pwd rest ih =>
    simp only [processItems, List.filterMap_cons, itemOutcome]
    cases validatePassword pwd with
    | error msg => simpa [Except.toOption] using ih (idx + 1)
    | ok _ =>
      cases hashFn pwd opts with
      | ok h => simpa [Except.toOption] using ih (idx + 1)
      | error msg => simpa [Except.toOption] using ih (idx + 1)

theorem processItems_errors_eq (hashFn : JSVal → Argon2idOptions → Except String String)
    (opts : Argon2idOptions) (idx : Nat) (pwds : List JSVal) :
    (processItems hashFn opts idx pwds).errors
      = (List.enumFrom idx pwds).filterMap (fun x =>
          match itemOutcome hashFn opts x.2 with
          | .error m => some (x.1, m)
          | .ok _ => none) := by
  induction pwds generalizing idx with
  | nil => rfl
  | cons pwd rest ih =>
    simp only [processItems, List.enumFrom_cons, List.filterMap_cons, itemOutcome]
    cases validatePassword pwd with
    | error msg => simpa using ih (idx + 1)
    | ok _ =>
      cases hashFn pwd opts with
      | ok h => simpa using ih (idx + 1)
      | error msg => simpa using ih (idx + 1)

theorem processItems_errors_mem_bounds (hashFn : JSVal → Argon2idOptions → Except String String)
    (opts : Argon2idOptions) (idx : Nat) (pwds : List JSVal) :
    ∀ e ∈ (processItems hashFn opts idx pwds).errors,
      idx ≤ e.1 ∧ e.1 < idx + pwds.length := by
  induction pwds generalizing idx with
  | nil =>
    intro e he
    simp [processItems] at he
  | cons pwd rest ih =>
    simp only [processItems, List.length_cons]
    cases validatePassword pwd with
    | error msg =>
      intro e he
      rcases List.mem_cons.mp he with rfl | he'
      · simp
      · have := ih (idx + 1) e he'
        omega
    | ok _ =>
      cases hashFn pwd opts with
      | ok h =>
        intro e he
        have := ih (idx + 1) e he
        omega
      | error msg =>
        intro e he
        rcases List.mem_cons.mp he with rfl | he'
        · simp
        · have := ih (idx + 1) e he'
          omega

theorem processItems_errors_pairwise (hashFn : JSVal → Argon2idOptions → Except String String)
    (opts : Argon2idOptions) (idx : Nat) (pwds : List JSVal) :
    List.Pairwise (fun a b => a < b)
      ((processItems hashFn opts idx pwds).errors.map Prod.fst) := by
  induction pwds generalizing idx with
  | nil => simp [processItems]
  | cons pwd rest ih =>
    simp only [processItems]
    have hbound := processItems_errors_mem_bounds hashFn opts (idx + 1) rest
    cases validatePassword pwd with
    | error msg =>
      simp only [List.map_cons]
      refine List.pairwise_cons.mpr ⟨?_, ih (idx + 1)⟩
      intro a ha
      rcases List.mem_map.mp ha with ⟨e, he, rfl⟩
      have := hbound e he
      omega
    | ok _ =>
      cases hashFn pwd opts with
      | ok h => exact ih (idx + 1)
      | error msg =>
        simp only [List.map_cons]
        refine List.pairwise_cons.mpr ⟨?_, ih (idx + 1)⟩
        intro a ha
        rcases List.mem_map.mp ha with ⟨e, he, rfl⟩
        have := hbound e he
        omega

theorem processItemsTraced_events (hashFn : JSVal → Argon2idOptions → Except String String)
    (opts : Argon2idOptions) (idx : Nat) (pwds : List JSVal) :
    ∀ e ∈ (processItemsTraced hashFn opts idx pwds).2,
      ∃ p, e = BatchEvent.engineCall p opts := by
  induction pwds generalizing idx with
  | nil =>
    intro e he
    simp [processItemsTraced] at he
  | cons pwd rest ih =>
    simp only [processItemsTraced]
    cases validatePassword pwd with
    | error msg => exact ih (idx + 1)
    | ok _ =>
      cases hashFn pwd opts with
      | ok h =>
        intro e he
        rcases List.mem_cons.mp he with rfl | he'
        · exact ⟨pwd, rfl⟩
        · exact ih (idx + 1) e he'
      | error msg =>
        intro e he
        rcases List.mem_cons.mp he with rfl | he'
        · exact ⟨pwd, rfl⟩
        · exact ih (idx + 1) e he'

theorem processItems_append (hashFn : JSVal → Argon2idOptions → Except String String)
    (opts : Argon2idOptions) (idx : Nat) (l1 l2 : List JSVal) :
    processItems hashFn opts idx (l1 ++ l2) =
      { hashes := (processItems hashFn opts idx l1).hashes
          ++ (processItems hashFn opts (idx + l1.length) l2).hashes
        errors := (processItems hashFn opts idx l1).errors
          ++ (processItems hashFn opts (idx + l1.length) l2).errors } := by
  induction l1 generalizing idx with
  | nil => simp [processItems]
  | cons pwd rest ih =>
    have harith : idx + (rest.length + 1) = idx + 1 + rest.length := by omega
    simp only [List.cons_append, processItems, List.length_cons, harith, ih (idx + 1)]
    cases validatePassword pwd with
    | error msg => simp [ih (idx + 1)]
    | ok _ =>
      cases hashFn pwd opts with
      | ok h => simp [ih (idx + 1)]
      | error msg => simp [ih (idx + 1)]

theorem processItems_all_ok (hashFn : JSVal → Argon2idOptions → Except String String)
    (opts : Argon2idOptions) (idx : Nat) (pwds : List JSVal)
    (h : ∀ p ∈ pwds, (itemOutcome hashFn opts p).isOk = true) :
    (processItems hashFn opts idx pwds).errors = [] ∧
      (processItems hashFn opts idx pwds).hashes.length = pwds.length := by
  induction pwds generalizing idx with
  | nil => exact ⟨rfl, rfl⟩
  | cons pwd rest ih =>
    have hhead := h pwd (List.mem_cons_self pwd rest)
    have htail : ∀ p ∈ rest, (itemOutcome hashFn opts p).isOk = true :=
      fun p hp => h p (List.mem_cons_of_mem pwd hp)
    simp only [processItems, List.length_cons]
    cases hv : validatePassword pwd with
    | error msg =>
      rw [itemOutcome, hv] at hhead
      simp [Except.isOk, Except.toBool] at hhead
    | ok _ =>
      cases hf : hashFn pwd opts with
      | ok hsh =>
        have := ih (idx + 1) htail
        exact ⟨this.1, by simp [this.2]⟩
      | error msg =>
        rw [itemOutcome, hv, hf] at hhead
        simp [Except.isOk, Except.toBool] at hhead

theorem batchHash_ok_inv {hashFn : JSVal → Argon2idOptions → Except String String}
    {pwds : List JSVal} {options : Option RawOptions} {r : BatchHashResult}
    (h : batchHash hashFn (some pwds) options = .ok r) :
    r = processItems hashFn (validateHashOptions options) 0 pwds ∧
      1 ≤ pwds.length ∧ pwds.length ≤ 100 := by
  simp only [batchHash] at h
  split at h
  · exact absurd h (by simp)
  · split at h
    · exact absurd h (by simp)
    · refine ⟨?_, by omega, by omega⟩
      injection h with h'
      exact h'.symm

theorem vho_time_cost (o : RawOptions) :
    (validateHashOptions (some o)).time_cost =
      (match o.time_cost with
        | some (.int n) =>
          if 1 ≤ n ∧ n ≤ 10 then n else DEFAULT_OPTIONS.time_cost
        | _ => DEFAULT_OPTIONS.time_cost) := rfl

theorem vho_memory_cost (o : RawOptions) :
    (validateHashOptions (some o)).memory_cost =
      (match o.memory_cost with
        | some (.int n) =>
          if 8192 ≤ n ∧ n ≤ 1048576 ∧ n.toNat &&& (n.toNat - 1) = 0 then n
          else DEFAULT_OPTIONS.memory_cost
        | _ => DEFAULT_OPTIONS.memory_cost) := rfl

theorem vho_parallelism (o : RawOptions) :
    (validateHashOptions (some o)).parallelism =
      (match o.parallelism with
        | some (.int n) =>
          if 1 ≤ n ∧ n ≤ 16 then n else DEFAULT_OPTIONS.parallelism
        | _ => DEFAULT_OPTIONS.parallelism) := rfl

theorem vho_salt_length (o : RawOptions) :
    (validateHashOptions (some o)).salt_length =
      (match o.salt_length with
        | some (.int n) =>
          if 8 ≤ n ∧ n ≤ 32 then n else DEFAULT_OPTIONS.salt_length
        | _ => DEFAULT_OPTIONS.salt_length) := rfl

/-! ### Claim theorems -/

/-- Claim C6: `validateHashOptions` applied to an absent/undefined options
value returns exactly the compiled-in defaults: `time_cost = 2`,
`memory_cost = 19456`, `parallelism = 1`, `salt_length = 16`. -/
theorem validateHashOptions_none_eq_defaults :
    validateHashOptions none =
      { time_cost := 2, memory_cost := 19456, parallelism := 1, salt_length := 16 } := rfl

/-- Counterexample to claim C1 as stated: at the concrete input `none`
(no overrides), the validated `memory_cost` is the default 19456, which is
not a power of two, refuting "memory_cost ... a power of two ... regardless
of `o`'s contents". -/
theorem validateHashOptions_default_memory_not_pow2 :
    (validateHashOptions none).memory_cost = 19456 ∧
      ¬ ∃ k : Nat, (validateHashOptions none).memory_cost = 2 ^ k := by
  refine ⟨rfl, ?_⟩
  rintro ⟨k, hk⟩
  rw [show (validateHashOptions none).memory_cost = 19456 from rfl] at hk
  rcases le_or_lt k 14 with h | h
  · have : (2 : Int) ^ k ≤ 2 ^ 14 := pow_le_pow_right₀ (by norm_num) h
    norm_num at this
    omega
  · have : (2 : Int) ^ 15 ≤ 2 ^ k := pow_le_pow_right₀ (by norm_num) h
    norm_num at this
    omega

/-- Claim C1 (amended): for every partial options value `o`, the result of
`validateHashOptions o` has `time_cost ∈ [1,10]`, `parallelism ∈ [1,16]`,
`salt_length ∈ [8,32]`, `memory_cost ∈ [8192,1048576]`, and `memory_cost`
is either the compiled-in default 19456 or a power of two. -/
theorem validateHashOptions_bounds (o : Option RawOptions) :
    (1 ≤ (validateHashOptions o).time_cost ∧ (validateHashOptions o).time_cost ≤ 10) ∧
    (1 ≤ (validateHashOptions o).parallelism ∧ (validateHashOptions o).parallelism ≤ 16) ∧
    (8 ≤ (validateHashOptions o).salt_length ∧ (validateHashOptions o).salt_length ≤ 32) ∧
    (8192 ≤ (validateHashOptions o).memory_cost ∧
      (validateHashOptions o).memory_cost ≤ 1048576) ∧
    ((validateHashOptions o).memory_cost = 19456 ∨
      ∃ k : Nat, (validateHashOptions o).memory_cost = 2 ^ k) := by
  cases o with
  | none =>
    refine ⟨⟨?_, ?_⟩, ⟨?_, ?_⟩, ⟨?_, ?_⟩, ⟨?_, ?_⟩, Or.inl rfl⟩ <;> decide
  | some opts =>
    refine ⟨?_, ?_, ?_, ?_, ?_⟩
    · rw [vho_time_cost]
      cases htc : opts.time_cost with
      | none => exact ⟨by decide, by decide⟩
      | some fv =>
        cases fv with
        | int n =>
          by_cases h : 1 ≤ n ∧ n ≤ 10
          · simp only [if_pos h]
            exact h
          · simp only [if_neg h]
            exact ⟨by decide, by decide⟩
        | nonInt => exact ⟨by decide, by decide⟩
    · rw [vho_parallelism]
      cases htc : opts.parallelism with
      | none => exact ⟨by decide, by decide⟩
      | some fv =>
        cases fv with
        | int n =>
          by_cases h : 1 ≤ n ∧ n ≤ 16
          · simp only [if_pos h]
            exact h
          · simp only [if_neg h]
            exact ⟨by decide, by decide⟩
        | nonInt => exact ⟨by decide, by decide⟩
    · rw [vho_salt_length]
      cases htc : opts.salt_length with
      | none => exact ⟨by decide, by decide⟩
      | some fv =>
        cases fv with
        | int n =>
          by_cases h : 8 ≤ n ∧ n ≤ 32
          · simp only [if_pos h]
            exact h
          · simp only [if_neg h]
            exact ⟨by decide, by decide⟩
        | nonInt => exact ⟨by decide, by decide⟩
    · rw [vho_memory_cost]
      cases htc : opts.memory_cost with
      | none => exact ⟨by decide, by decide⟩
      | some fv =>
        cases fv with
        | int n =>
          by_cases h : 8192 ≤ n ∧ n ≤ 1048576 ∧ n.toNat &&& (n.toNat - 1) = 0
          · simp only [if_pos h]
            exact ⟨h.1, h.2.1⟩
          · simp only [if_neg h]
            exact ⟨by decide, by decide⟩
        | nonInt => exact ⟨by decide, by decide⟩
    · rw [vho_memory_cost]
      cases htc : opts.memory_cost with
      | none => exact Or.inl rfl
      | some fv =>
        cases fv with
        | int n =>
          by_cases h : 8192 ≤ n ∧ n ≤ 1048576 ∧ n.toNat &&& (n.toNat - 1) = 0
          · simp only [if_pos h]
            exact Or.inr ((int_pow2_iff_land (by omega)).mp h.2.2)
          · simp only [if_neg h]
            exact Or.inl rfl
        | nonInt => exact Or.inl rfl

/-- Claim C7: `validatePassword` fails with the message
"Password must be a non-empty string" if and only if the argument is not a
string of length > 0; for every non-empty string it succeeds (returns
`true`) without error. -/
theorem validatePassword_iff (p : JSVal) :
    (validatePassword p = .ok true ↔ ∃ s, p = JSVal.str s ∧ 0 < s.length) ∧
    (validatePassword p = .error "Password must be a non-empty string" ↔
      ¬ ∃ s, p = JSVal.str s ∧ 0 < s.length) := by
  cases p with
  | str s =>
    by_cases h : s = ""
    · subst h
      have hval : validatePassword (.str "") = .error "Password must be a non-empty string" := rfl
      rw [hval]
      have hno : ¬ ∃ x, JSVal.str "" = JSVal.str x ∧ 0 < x.length := by
        rintro ⟨x, hx, hlen⟩
        have hx' : "" = x := by injection hx
        rw [← hx'] at hlen
        exact absurd hlen (by decide)
      exact ⟨⟨fun h' => Except.noConfusion h', fun h' => absurd h' hno⟩,
        ⟨fun _ => hno, fun _ => rfl⟩⟩
    · rw [validatePassword_str_ok h]
      have hlen : 0 < s.length := (string_length_pos_iff s).mpr h
      exact ⟨⟨fun _ => ⟨s, rfl, hlen⟩, fun _ => rfl⟩,
        ⟨fun h' => Except.noConfusion h', fun hno => absurd ⟨s, rfl, hlen⟩ hno⟩⟩
  | other f =>
    have hval : validatePassword (.other f) = .error "Password must be a non-empty string" := by
      cases f <;> rfl
    rw [hval]
    have hno : ¬ ∃ x, JSVal.other f = JSVal.str x ∧ 0 < x.length := by
      rintro ⟨x, hx, _⟩
      exact JSVal.noConfusion hx
    exact ⟨⟨fun h' => Except.noConfusion h', fun h' => absurd h' hno⟩,
      ⟨fun _ => hno, fun _ => rfl⟩⟩

/-- Claim C3: for every partial options value and every field, if the
caller-supplied value is an integer within its closed bound (and, for
memory_cost, also a power of two), the result uses the supplied value;
otherwise the result uses the compiled-in default for that field, and a
malformed or out-of-range per-field override never causes the request to
be rejected (the `/hash` handler still succeeds whenever the password is
valid and the engine succeeds). -/
theorem validateHashOptions_per_field (o : RawOptions) :
    (∀ n : Int, o.time_cost = some (.int n) →
      ((1 ≤ n ∧ n ≤ 10) → (validateHashOptions (some o)).time_cost = n) ∧
      (¬(1 ≤ n ∧ n ≤ 10) →
        (validateHashOptions (some o)).time_cost = DEFAULT_OPTIONS.time_cost)) ∧
    ((o.time_cost = none ∨ o.time_cost = some .nonInt) →
      (validateHashOptions (some o)).time_cost = DEFAULT_OPTIONS.time_cost) ∧
    (∀ n : Int, o.memory_cost = some (.int n) →
      ((8192 ≤ n ∧ n ≤ 1048576 ∧ ∃ k : Nat, n = 2 ^ k) →
        (validateHashOptions (some o)).memory_cost = n) ∧
      (¬(8192 ≤ n ∧ n ≤ 1048576 ∧ ∃ k : Nat, n = 2 ^ k) →
        (validateHashOptions (some o)).memory_cost = DEFAULT_OPTIONS.memory_cost)) ∧
    ((o.memory_cost = none ∨ o.memory_cost = some .nonInt) →
      (validateHashOptions (some o)).memory_cost = DEFAULT_OPTIONS.memory_cost) ∧
    (∀ n : Int, o.parallelism = some (.int n) →
      ((1 ≤ n ∧ n ≤ 16) → (validateHashOptions (some o)).parallelism = n) ∧
      (¬(1 ≤ n ∧ n ≤ 16) →
        (validateHashOptions (some o)).parallelism = DEFAULT_OPTIONS.parallelism)) ∧
    ((o.parallelism = none ∨ o.parallelism = some .nonInt) →
      (validateHashOptions (some o)).parallelism = DEFAULT_OPTIONS.parallelism) ∧
    (∀ n : Int, o.salt_length = some (.int n) →
      ((8 ≤ n ∧ n ≤ 32) → (validateHashOptions (some o)).salt_length = n) ∧
      (¬(8 ≤ n ∧ n ≤ 32) →
        (validateHashOptions (some o)).salt_length = DEFAULT_OPTIONS.salt_length)) ∧
    ((o.salt_length = none ∨ o.salt_length = some .nonInt) →
      (validateHashOptions (some o)).salt_length = DEFAULT_OPTIONS.salt_length) ∧
    (∀ (hashFn : JSVal → Argon2idOptions → Except String String) (s : String) (hsh : String),
      s ≠ "" → hashFn (JSVal.str s) (validateHashOptions (some o)) = .ok hsh →
      hashHandler hashFn (JSVal.str s) (some o) = .ok hsh) := by
  refine ⟨?_, ?_, ?_, ?_, ?_, ?_, ?_, ?_, ?_⟩
  · intro n hn
    rw [vho_time_cost, hn]
    constructor
    · intro h
      simp only [if_pos h]
    · intro h
      simp only [if_neg h]
  · intro h
    rw [vho_time_cost]
    rcases h with h | h <;> rw [h]
  · intro n hn
    rw [vho_memory_cost, hn]
    constructor
    · intro h
      have hbit : n.toNat &&& (n.toNat - 1) = 0 :=
        (int_pow2_iff_land (by omega)).mpr h.2.2
      simp only [if_pos (And.intro h.1 (And.intro h.2.1 hbit))]
    · intro h
      have hneg : ¬(8192 ≤ n ∧ n ≤ 1048576 ∧ n.toNat &&& (n.toNat - 1) = 0) := by
        rintro ⟨ha, hb, hbit⟩
        exact h ⟨ha, hb, (int_pow2_iff_land (by omega)).mp hbit⟩
      simp only [if_neg hneg]
  · intro h
    rw [vho_memory_cost]
    rcases h with h | h <;> rw [h]
  · intro n hn
    rw [vho_parallelism, hn]
    constructor
    · intro h
      simp only [if_pos h]
    · intro h
      simp only [if_neg h]
  · intro h
    rw [vho_parallelism]
    rcases h with h | h <;> rw [h]
  · intro n hn
    rw [vho_salt_length, hn]
    constructor
    · intro h
      simp only [if_pos h]
    · intro h
      simp only [if_neg h]
  · intro h
    rw [vho_salt_length]
    rcases h with h | h <;> rw [h]
  · intro hashFn s hsh hs hok
    rw [hashHandler, validatePassword_str_ok hs]
    exact hok

/-- Witness for claim C3 at a concrete input: an in-range `time_cost`
override of 3 is used verbatim. -/
theorem validateHashOptions_per_field_witness :
    (validateHashOptions (some { time_cost := some (.int 3) })).time_cost = 3 :=
  ((validateHashOptions_per_field { time_cost := some (.int 3) }).1 3 rfl).1 (by decide)

/-- Claim C8: `getConfig` is a constant (hence pure and independent of any
prior request): it returns exactly the default options
{time_cost 2, memory_cost 19456, parallelism 1, salt_length 16} and the
limits time_cost [1,10], memory_cost [8192,1048576] (power-of-two noted),
parallelism [1,16], salt_length [8,32], batch_size max 100 — and these are
the same constants the validator enforces: an integer override is accepted
iff it lies within the advertised range (with the power-of-two side
condition for memory_cost). -/
theorem getConfig_spec :
    getConfig =
      { defaultOptions :=
          { time_cost := 2, memory_cost := 19456, parallelism := 1, salt_length := 16 }
        limits :=
          { time_cost := { min := 1, max := 10 }
            memory_cost := { min := 8192, max := 1048576, note := "Must be a power of 2" }
            parallelism := { min := 1, max := 16 }
            salt_length := { min := 8, max := 32 }
            batch_size := { max := 100 } } } ∧
    getConfig.defaultOptions = validateHashOptions none ∧
    (∀ n : Int,
      (validateHashOptions (some { time_cost := some (.int n) })).time_cost = n ↔
        getConfig.limits.time_cost.min ≤ n ∧ n ≤ getConfig.limits.time_cost.max) ∧
    (∀ n : Int,
      (validateHashOptions (some { parallelism := some (.int n) })).parallelism = n ↔
        getConfig.limits.parallelism.min ≤ n ∧ n ≤ getConfig.limits.parallelism.max) ∧
    (∀ n : Int,
      (validateHashOptions (some { salt_length := some (.int n) })).salt_length = n ↔
        getConfig.limits.salt_length.min ≤ n ∧ n ≤ getConfig.limits.salt_length.max) ∧
    (∀ n : Int, getConfig.limits.memory_cost.min ≤ n →
      n ≤ getConfig.limits.memory_cost.max → (∃ k : Nat, n = 2 ^ k) →
      (validateHashOptions (some { memory_cost := some (.int n) })).memory_cost = n) := by
  refine ⟨rfl, rfl, ?_, ?_, ?_, ?_⟩
  · intro n
    rw [vho_time_cost]
    show (if 1 ≤ n ∧ n ≤ 10 then n else 2) = n ↔ (1 : Int) ≤ n ∧ n ≤ 10
    split_ifs with h
    · simp [h]
    · constructor
      · intro h2
        omega
      · intro h2
        exact absurd h2 h
  · intro n
    rw [vho_parallelism]
    show (if 1 ≤ n ∧ n ≤ 16 then n else 1) = n ↔ (1 : Int) ≤ n ∧ n ≤ 16
    split_ifs with h
    · simp [h]
    · constructor
      · intro h2
        omega
      · intro h2
        exact absurd h2 h
  · intro n
    rw [vho_salt_length]
    show (if 8 ≤ n ∧ n ≤ 32 then n else 16) = n ↔ (8 : Int) ≤ n ∧ n ≤ 32
    split_ifs with h
    · simp [h]
    · constructor
      · intro h2
        omega
      · intro h2
        exact absurd h2 h
  · intro n hmin hmax hpow
    rw [vho_memory_cost]
    have hbit : n.toNat &&& (n.toNat - 1) = 0 := by
      refine (int_pow2_iff_land ?_).mpr hpow
      revert hmin
      show getConfig.limits.memory_cost.min ≤ n → 1 ≤ n
      intro hmin
      have : getConfig.limits.memory_cost.min = 8192 := rfl
      omega
    have hmin' : (8192 : Int) ≤ n := hmin
    have hmax' : n ≤ 1048576 := hmax
    show (if 8192 ≤ n ∧ n ≤ 1048576 ∧ n.toNat &&& (n.toNat - 1) = 0 then n else 19456) = n
    rw [if_pos ⟨hmin', hmax', hbit⟩]

/-- Witness for claim C8: the advertised memory range and power-of-two
rule admit 16384 = 2 to the 14th, which the validator indeed accepts. -/
theorem getConfig_spec_witness :
    (validateHashOptions (some { memory_cost := some (.int 16384) })).memory_cost = 16384 :=
  getConfig_spec.2.2.2.2.2 16384 (by decide) (by decide) ⟨14, by norm_num⟩

/-- Claim C5: `/batch-hash` rejects a non-array or empty `passwords` and a
batch of more than 100 passwords with a 400 error, before any option
validation or per-item processing happens (the instrumented trace is
empty), and for every length in [1,100] the preconditions pass and a
`BatchHashResult` is returned. -/
theorem batchHash_preconditions (hashFn : JSVal → Argon2idOptions → Except String String)
    (options : Option RawOptions) :
    (batchHash hashFn none options = .badRequest "Passwords must be a non-empty array" ∧
      (batchHashTraced hashFn none options).2 = []) ∧
    (∀ pwds : List JSVal, pwds.length = 0 →
      batchHash hashFn (some pwds) options = .badRequest "Passwords must be a non-empty array" ∧
      (batchHashTraced hashFn (some pwds) options).2 = []) ∧
    (∀ pwds : List JSVal, pwds.length > 100 →
      batchHash hashFn (some pwds) options = .badRequest "Batch size limited to 100 passwords" ∧
      (batchHashTraced hashFn (some pwds) options).2 = []) ∧
    (∀ pwds : List JSVal, 1 ≤ pwds.length → pwds.length ≤ 100 →
      ∃ r, batchHash hashFn (some pwds) options = .ok r) := by
  refine ⟨⟨rfl, rfl⟩, ?_, ?_, ?_⟩
  · intro pwds h
    constructor
    · simp only [batchHash]
      rw [if_pos h]
    · simp only [batchHashTraced]
      rw [if_pos h]
  · intro pwds h
    constructor
    · simp only [batchHash]
      rw [if_neg (by omega), if_pos h]
    · simp only [batchHashTraced]
      rw [if_neg (by omega), if_pos h]
  · intro pwds h1 h100
    refine ⟨processItems hashFn (validateHashOptions options) 0 pwds, ?_⟩
    simp only [batchHash]
    rw [if_neg (by omega), if_neg (by omega)]

/-- Witness for claim C5 at concrete inputs: the empty batch is rejected
with no processing, and a singleton batch passes the preconditions. -/
theorem batchHash_preconditions_witness :
    (batchHash (fun _ _ => .ok "H") (some ([] : List JSVal)) none =
        .badRequest "Passwords must be a non-empty array" ∧
      (batchHashTraced (fun _ _ => .ok "H") (some ([] : List JSVal)) none).2 = []) ∧
    ∃ r, batchHash (fun _ _ => .ok "H") (some [JSVal.str "a"]) none = .ok r :=
  ⟨(batchHash_preconditions (fun _ _ => .ok "H") none).2.1 [] rfl,
    (batchHash_preconditions (fun _ _ => .ok "H") none).2.2.2 [JSVal.str "a"]
      (by decide) (by decide)⟩

/-- Claim C9: for every batch that passes the preconditions, the returned
result satisfies |hashes| + |errors| = N: each of the N input items
contributes exactly one outcome. -/
theorem batchHash_outcome_count {hashFn : JSVal → Argon2idOptions → Except String String}
    {pwds : List JSVal} {options : Option RawOptions} {r : BatchHashResult}
    (h : batchHash hashFn (some pwds) options = .ok r) :
    r.hashes.length + r.errors.length = pwds.length := by
  obtain ⟨hr, -, -⟩ := batchHash_ok_inv h
  subst hr
  exact processItems_length hashFn (validateHashOptions options) 0 pwds

/-- Witness for claim C9 at a concrete input: a two-item batch with one
failing item yields one hash plus one error. -/
theorem batchHash_outcome_count_witness :
    (BatchHashResult.mk ["H"] [(1, "Password must be a non-empty string")]).hashes.length
        + (BatchHashResult.mk ["H"] [(1, "Password must be a non-empty string")]).errors.length
      = [JSVal.str "a", JSVal.str ""].length :=
  @batchHash_outcome_count (fun _ _ => .ok "H") [JSVal.str "a", JSVal.str ""] none
    { hashes := ["H"], errors := [(1, "Password must be a non-empty string")] } (by rfl)

/-- Claim C10: in every returned batch result the error indices are
strictly increasing in order of appearance (hence pairwise distinct) and
lie in [0, N); the hashes are, in input order, exactly the successful
outcomes (those whose index is not recorded in errors), and the errors
are exactly the failing indices paired with their messages. -/
theorem batchHash_errors_indices {hashFn : JSVal → Argon2idOptions → Except String String}
    {pwds : List JSVal} {options : Option RawOptions} {r : BatchHashResult}
    (h : batchHash hashFn (some pwds) options = .ok r) :
    List.Pairwise (fun a b => a < b) (r.errors.map Prod.fst) ∧
    (∀ e ∈ r.errors, e.1 < pwds.length) ∧
    r.hashes = pwds.filterMap
      (fun p => (itemOutcome hashFn (validateHashOptions options) p).toOption) ∧
    r.errors = (List.enumFrom 0 pwds).filterMap (fun x =>
      match itemOutcome hashFn (validateHashOptions options) x.2 with
      | .error m => some (x.1, m)
      | .ok _ => none) := by
  obtain ⟨hr, -, -⟩ := batchHash_ok_inv h
  subst hr
  refine ⟨processItems_errors_pairwise hashFn (validateHashOptions options) 0 pwds,
    ?_, processItems_hashes_eq hashFn (validateHashOptions options) 0 pwds,
    processItems_errors_eq hashFn (validateHashOptions options) 0 pwds⟩
  intro e he
  have := processItems_errors_mem_bounds hashFn (validateHashOptions options) 0 pwds e he
  omega

/-- Witness for claim C10 at a concrete input: batch ["", "a", ""] has
errors at indices 0 and 2 (strictly increasing, within bounds) and the
lone hash comes from index 1. -/
theorem batchHash_errors_indices_witness :
    List.Pairwise (fun a b => a < b)
      ((BatchHashResult.mk ["H"] [(0, "Password must be a non-empty string"),
        (2, "Password must be a non-empty string")]).errors.map Prod.fst) ∧
    (∀ e ∈ (BatchHashResult.mk ["H"] [(0, "Password must be a non-empty string"),
        (2, "Password must be a non-empty string")]).errors,
      e.1 < [JSVal.str "", JSVal.str "a", JSVal.str ""].length) ∧
    (BatchHashResult.mk ["H"] [(0, "Password must be a non-empty string"),
        (2, "Password must be a non-empty string")]).hashes =
      [JSVal.str "", JSVal.str "a", JSVal.str ""].filterMap
        (fun p => (itemOutcome (fun _ _ => .ok "H") (validateHashOptions none) p).toOption) ∧
    (BatchHashResult.mk ["H"] [(0, "Password must be a non-empty string"),
        (2, "Password must be a non-empty string")]).errors =
      (List.enumFrom 0 [JSVal.str "", JSVal.str "a", JSVal.str ""]).filterMap (fun x =>
        match itemOutcome (fun _ _ => .ok "H") (validateHashOptions none) x.2 with
        | .error m => some (x.1, m)
        | .ok _ => none) :=
  @batchHash_errors_indices (fun _ _ => .ok "H") [JSVal.str "", JSVal.str "a", JSVal.str ""]
    none
    { hashes := ["H"], errors := [(0, "Password must be a non-empty string"),
        (2, "Password must be a non-empty string")] } (by rfl)

/-- Claim C4: in the `/batch-hash` handler, `validateHashOptions` runs
exactly once per accepted request, before the per-item loop (it is the
first event of the instrumented trace), and every engine call in the batch
receives exactly that single validated options value; the instrumented
handler computes the same response as the plain one. -/
theorem batchHash_validates_once {hashFn : JSVal → Argon2idOptions → Except String String}
    {pwds : List JSVal} {options : Option RawOptions} {r : BatchHashResult}
    {tr : List BatchEvent}
    (h : batchHashTraced hashFn (some pwds) options = (.ok r, tr)) :
    tr.countP isValidateEvent = 1 ∧
    tr.head? = some (.validatedOptions (validateHashOptions options)) ∧
    (∀ p opts2, BatchEvent.engineCall p opts2 ∈ tr → opts2 = validateHashOptions options) ∧
    (batchHashTraced hashFn (some pwds) options).1 = batchHash hashFn (some pwds) options := by
  simp only [batchHashTraced] at h
  split at h
  · exact absurd h (by simp)
  · split at h
    · exact absurd h (by simp)
    · rw [Prod.mk.injEq] at h
      obtain ⟨h1, h2⟩ := h
      refine ⟨?_, ?_, ?_, batchHashTraced_fst hashFn (some pwds) options⟩
      · rw [← h2, List.countP_cons]
        have hzero : (processItemsTraced hashFn (validateHashOptions options) 0 pwds).2.countP
            isValidateEvent = 0 := by
          rw [List.countP_eq_zero]
          intro e he
          obtain ⟨p, rfl⟩ :=
            processItemsTraced_events hashFn (validateHashOptions options) 0 pwds e he
          simp [isValidateEvent]
        rw [hzero]
        simp [isValidateEvent]
      · rw [← h2]
        rfl
      · intro p opts2 hmem
        rw [← h2] at hmem
        rcases List.mem_cons.mp hmem with heq | hmem'
        · exact BatchEvent.noConfusion heq
        · obtain ⟨p', heq⟩ :=
            processItemsTraced_events hashFn (validateHashOptions options) 0 pwds _ hmem'
          exact (BatchEvent.engineCall.inj heq).2

/-- Witness for claim C4 at a concrete input: a singleton batch produces a
trace whose only validation event heads the trace. -/
theorem batchHash_validates_once_witness :
    [BatchEvent.validatedOptions (validateHashOptions none),
      BatchEvent.engineCall (JSVal.str "a") (validateHashOptions none)].countP
        isValidateEvent = 1 ∧
    [BatchEvent.validatedOptions (validateHashOptions none),
      BatchEvent.engineCall (JSVal.str "a") (validateHashOptions none)].head? =
      some (.validatedOptions (validateHashOptions none)) :=
  ⟨(@batchHash_validates_once (fun _ _ => .ok "H") [JSVal.str "a"] none
      { hashes := ["H"], errors := [] }
      [BatchEvent.validatedOptions (validateHashOptions none),
        BatchEvent.engineCall (JSVal.str "a") (validateHashOptions none)] (by rfl)).1,
    (@batchHash_validates_once (fun _ _ => .ok "H") [JSVal.str "a"] none
      { hashes := ["H"], errors := [] }
      [BatchEvent.validatedOptions (validateHashOptions none),
        BatchEvent.engineCall (JSVal.str "a") (validateHashOptions none)] (by rfl)).2.1⟩

/-- Claim C2: in an accepted batch each item is processed independently —
for a batch of N passwords whose only empty-string entry sits at index i
(here i = ss1.length), with the engine succeeding on every non-empty
password, the handler still returns a result (the failure aborts nothing),
`errors` contains exactly one record whose index is i, and `hashes` has
N - 1 entries. -/
theorem batchHash_single_empty_isolated
    (hashFn : JSVal → Argon2idOptions → Except String String)
    (options : Option RawOptions) (ss1 ss2 : List String)
    (h1 : ∀ s ∈ ss1, s ≠ "") (h2 : ∀ s ∈ ss2, s ≠ "")
    (hE : ∀ s : String, s ≠ "" →
      (hashFn (.str s) (validateHashOptions options)).isOk = true)
    (hlen : ss1.length + 1 + ss2.length ≤ 100) :
    ∃ r, batchHash hashFn
        (some (ss1.map JSVal.str ++ (JSVal.str "" :: ss2.map JSVal.str))) options = .ok r ∧
      r.errors = [(ss1.length, "Password must be a non-empty string")] ∧
      r.hashes.length + 1 =
        (ss1.map JSVal.str ++ (JSVal.str "" :: ss2.map JSVal.str)).length := by
  have hok1 : ∀ p ∈ ss1.map JSVal.str,
      (itemOutcome hashFn (validateHashOptions options) p).isOk = true := by
    intro p hp
    rcases List.mem_map.mp hp with ⟨s, hs, rfl⟩
    have hne := h1 s hs
    rw [itemOutcome, validatePassword_str_ok hne]
    exact hE s hne
  have hok2 : ∀ p ∈ ss2.map JSVal.str,
      (itemOutcome hashFn (validateHashOptions options) p).isOk = true := by
    intro p hp
    rcases List.mem_map.mp hp with ⟨s, hs, rfl⟩
    have hne := h2 s hs
    rw [itemOutcome, validatePassword_str_ok hne]
    exact hE s hne
  have hA := processItems_all_ok hashFn (validateHashOptions options) 0
    (ss1.map JSVal.str) hok1
  have hB := processItems_all_ok hashFn (validateHashOptions options)
    (ss1.length + 1) (ss2.map JSVal.str) hok2
  have happ := processItems_append hashFn (validateHashOptions options) 0
    (ss1.map JSVal.str) (JSVal.str "" :: ss2.map JSVal.str)
  simp only [Nat.zero_add, List.length_map] at happ
  simp only [List.length_map] at hA hB
  have hmid : processItems hashFn (validateHashOptions options)
      ss1.length (JSVal.str "" :: ss2.map JSVal.str) =
      { hashes := (processItems hashFn (validateHashOptions options)
          (ss1.length + 1) (ss2.map JSVal.str)).hashes
        errors := (ss1.length, "Password must be a non-empty string") ::
          (processItems hashFn (validateHashOptions options)
            (ss1.length + 1) (ss2.map JSVal.str)).errors } := by
    simp only [processItems, validatePassword_str_empty]
  refine ⟨processItems hashFn (validateHashOptions options) 0
    (ss1.map JSVal.str ++ (JSVal.str "" :: ss2.map JSVal.str)), ?_, ?_, ?_⟩
  · simp only [batchHash]
    rw [if_neg (by
        simp only [List.length_append, List.length_map, List.length_cons]
        omega),
      if_neg (by
        simp only [List.length_append, List.length_map, List.length_cons]
        omega)]
  · rw [happ]
    simp only [hmid, hA.1, hB.1]
    simp
  · rw [happ]
    simp only [hmid]
    simp only [List.length_append, List.length_cons, List.length_map, hA.2, hB.2]
    omega

/-- Witness for claim C2 at a concrete input: batch ["a", "", "b"] yields
one error at index 1 and two hashes. -/
theorem batchHash_single_empty_isolated_witness :
    ∃ r, batchHash (fun _ _ => .ok "H")
        (some (["a"].map JSVal.str ++ (JSVal.str "" :: ["b"].map JSVal.str))) none = .ok r ∧
      r.errors = [(["a"].length, "Password must be a non-empty string")] ∧
      r.hashes.length + 1 =
        (["a"].map JSVal.str ++ (JSVal.str "" :: ["b"].map JSVal.str)).length :=
  batchHash_single_empty_isolated (fun _ _ => .ok "H") none ["a"] ["b"]
    (by simp) (by simp) (fun s hs => rfl) (by decide)
